import Mathlib

set_option maxRecDepth 8000

/- Verification of the Standard Bots live-reader dashboard (pages/app.py):
   preset management, SDK call unwrapping via .ok(), dotted-path method
   discovery and resolution, kwargs-to-model coercion, JSON-safe rendering,
   JSON-schema templates, and the rolling-history truncation policy. -/

/-! ## Presets: the add-to-presets handlers -/

/-- Embeds the two add-to-presets handlers (`add_from_discovered_btn` and
`add_from_adv`): the chosen path is appended only when it is not already in
the session presets list; otherwise the list is left unchanged. -/
def add_to_presets (presets : List String) (chosen : String) : List String :=
  if chosen ∈ presets then presets else presets ++ [chosen]

/-! ## Rolling history -/

/-- Modelled from the spec: a Sample is a mapping from variable name to value
together with a timestamp, read once per poll tick. The history code itself
is not part of this source file (it lives in the other dashboard variants),
so it is modelled from the spec text. -/
structure Sample where
  timestamp : Nat
  values : List (String × Int)
deriving DecidableEq, Repr

/-- Last `n` elements of a list, the semantics of Python `l[-n:]`. -/
def takeLast (n : Nat) (l : List Sample) : List Sample :=
  l.drop (l.length - n)

/-- Modelled from the spec: an append-only, time-ordered sequence of Samples,
truncated to the most recent 300 entries (oldest dropped first), i.e. the
`history = (history + [sample])[-300:]` truncation policy. -/
def append_sample (hist : List Sample) (s : Sample) : List Sample :=
  takeLast 300 (hist ++ [s])

/-- Appending a batch of samples one at a time, oldest first. -/
def append_samples (hist : List Sample) (samples : List Sample) : List Sample :=
  samples.foldl append_sample hist

/-! ## SDK call unwrapping -/

/-- A Python exception as observed by the handlers: its display text and the
traceback text produced by `traceback.format_exc`. -/
structure PyExc where
  msg : String
  trace : String
deriving DecidableEq, Repr

/-- An SDK response object: its `.ok()` unwrap (which may raise), and the
`status` and `data` attributes read defensively via `getattr(resp, _, None)`. -/
structure SdkResp (D : Type) where
  ok : Except PyExc D
  status : Option Nat
  dataAttr : Option D

/-- The `raw` debug dictionary built by `_call_ok_unwrap` on failure: one shape
per failure stage, each carrying the exception text. -/
inductive RawInfo (D : Type) where
  | invoke (error : String) (trace : String)
  | ok_unwrap (status : Option Nat) (data : Option D) (error : String)

/-- The result dictionary returned by `_call_ok_unwrap`. -/
structure CallResult (D : Type) where
  success : Bool
  data : Option D
  status : Option Nat
  raw : Option (RawInfo D)

/-- Embeds `_call_ok_unwrap`: invoke the method; if invocation raises, return
the invoke-stage debug result; otherwise unwrap with `.ok()`, returning the
success result or the ok_unwrap-stage debug result. -/
def _call_ok_unwrap {K D : Type} (method : K → Except PyExc (SdkResp D))
    (kwargs : K) : CallResult D :=
  match method kwargs with
  | Except.error e =>
      { success := false, data := none, status := none,
        raw := some (RawInfo.invoke e.msg e.trace) }
  | Except.ok resp =>
      match resp.ok with
      | Except.ok d =>
          { success := true, data := some d, status := some 200, raw := none }
      | Except.error e =>
          { success := false, data := none, status := resp.status,
            raw := some (RawInfo.ok_unwrap resp.status resp.dataAttr e.msg) }

/-! ## JSON values and the Load-presets handler -/

/-- A JSON value, as produced by `json.load` / consumed by the UI. -/
inductive JVal where
  | jnull
  | jbool (b : Bool)
  | jnum (n : Int)
  | jstr (s : String)
  | jarr (items : List JVal)
  | jobj (fields : List (String × JVal))

/-- Embeds the Load button handler (`load_presets`): `file` is `none` when the
preset file does not exist, `some (Except.error e)` when opening/parsing it
raises, and `some (Except.ok v)` when it parses to the JSON value `v`. The
session presets are replaced exactly when `v` is a JSON array (the code checks
only `isinstance(data, list)`); all other outcomes leave them unchanged and
surface a message. -/
def load_presets (file : Option (Except String JVal)) (presets : List JVal) :
    List JVal × Option String :=
  match file with
  | none => (presets, some "No saved file found yet.")
  | some (Except.error e) => (presets, some ("Load failed: " ++ e))
  | some (Except.ok (JVal.jarr items)) => (items, none)
  | some (Except.ok _) =>
      (presets, some "File did not contain a list of strings.")

/-- Formalizes the claim wording only (not source code): a JSON value that is
an array all of whose elements are strings. -/
def isStringArray : JVal → Bool
  | JVal.jarr items =>
      items.all (fun v => match v with | JVal.jstr _ => true | _ => false)
  | _ => false

/-! ## Theorems about presets and history -/

/-- C1: starting from a duplicate-free presets list, an add-to-presets
operation keeps the list duplicate-free: the chosen path is appended only
when absent, and the list is unchanged when it is already present. -/
theorem C1_add_to_presets_nodup (presets : List String) (p : String)
    (h : presets.Nodup) :
    (add_to_presets presets p).Nodup ∧
    (p ∉ presets → add_to_presets presets p = presets ++ [p]) ∧
    (p ∈ presets → add_to_presets presets p = presets) := by
  unfold add_to_presets
  by_cases hp : p ∈ presets
  · simp [hp, h]
  · simp [hp, List.nodup_append, h]

/-- Witness for C1 at a concrete presets list and path. -/
theorem C1_add_to_presets_nodup_witness :
    (add_to_presets ["movement.brakes.get_brakes_state"]
        "equipment.get_gripper_configuration").Nodup ∧
    ("equipment.get_gripper_configuration" ∉
        ["movement.brakes.get_brakes_state"] →
      add_to_presets ["movement.brakes.get_brakes_state"]
          "equipment.get_gripper_configuration" =
        ["movement.brakes.get_brakes_state"] ++
          ["equipment.get_gripper_configuration"]) ∧
    ("equipment.get_gripper_configuration" ∈
        ["movement.brakes.get_brakes_state"] →
      add_to_presets ["movement.brakes.get_brakes_state"]
          "equipment.get_gripper_configuration" =
        ["movement.brakes.get_brakes_state"]) :=
  C1_add_to_presets_nodup ["movement.brakes.get_brakes_state"]
    "equipment.get_gripper_configuration" (by decide)

theorem takeLast_length (n : Nat) (l : List Sample) :
    (takeLast n l).length = min n l.length := by
  simp [takeLast]
  omega

theorem takeLast_append_of_le (n : Nat) (t u : List Sample)
    (h : n ≤ u.length) : takeLast n (t ++ u) = takeLast n u := by
  unfold takeLast
  have harith : (t ++ u).length - n = t.length + (u.length - n) := by
    simp
    omega
  rw [harith, List.drop_append]

theorem takeLast_takeLast_append (n : Nat) (l m : List Sample) :
    takeLast n (takeLast n l ++ m) = takeLast n (l ++ m) := by
  by_cases h : l.length ≤ n
  · have : takeLast n l = l := by
      unfold takeLast
      have : l.length - n = 0 := by omega
      simp [this]
    rw [this]
  · have hle : n ≤ (takeLast n l ++ m).length := by
      rw [List.length_append, takeLast_length]; omega
    have hsplit : l ++ m = l.take (l.length - n) ++ (takeLast n l ++ m) := by
      rw [← List.append_assoc]
      unfold takeLast
      rw [List.take_append_drop]
    rw [hsplit, takeLast_append_of_le n _ _ hle]

theorem append_samples_eq_takeLast (samples : List Sample) (hist : List Sample)
    (hne : samples ≠ []) :
    append_samples hist samples = takeLast 300 (hist ++ samples) := by
  induction samples generalizing hist with
  | nil => exact absurd rfl hne
  | cons s rest ih =>
      by_cases hr : rest = []
      · subst hr
        rfl
      · have step : append_samples hist (s :: rest) =
            append_samples (append_sample hist s) rest := rfl
        rw [step, ih _ hr, append_sample, takeLast_takeLast_append]
        simp

/-- C4: the rolling history never exceeds 300 entries, and appending
N > 300 samples leaves exactly the most recent 300 samples in their
original order (the oldest are dropped first). -/
theorem C4_history_bound (hist : List Sample) (s : Sample)
    (samples : List Sample) (hN : 300 < samples.length) :
    (append_sample hist s).length ≤ 300 ∧
    append_samples hist samples = samples.drop (samples.length - 300) ∧
    (append_samples hist samples).length = 300 := by
  have h1 : (append_sample hist s).length ≤ 300 := by
    rw [append_sample, takeLast_length]; omega
  have hne : samples ≠ [] := by
    intro h; rw [h] at hN; simp at hN
  have h2 : append_samples hist samples = samples.drop (samples.length - 300) := by
    rw [append_samples_eq_takeLast samples hist hne,
      takeLast_append_of_le 300 hist samples (by omega)]
    rfl
  refine ⟨h1, h2, ?_⟩
  rw [h2]
  simp
  omega

/-- Witness for C4 with a batch of 301 concrete samples. -/
theorem C4_history_bound_witness :
    (append_sample [] ⟨0, []⟩).length ≤ 300 ∧
    append_samples [] ((List.range 301).map (fun i => ⟨i, []⟩)) =
      ((List.range 301).map (fun i => ⟨i, []⟩)).drop
        (((List.range 301).map (fun i => (⟨i, []⟩ : Sample))).length - 300) ∧
    (append_samples [] ((List.range 301).map (fun i => ⟨i, []⟩))).length = 300 :=
  C4_history_bound [] ⟨0, []⟩ ((List.range 301).map (fun i => ⟨i, []⟩))
    (by simp)

/-! ## Theorems about _call_ok_unwrap -/

/-- C2: `_call_ok_unwrap` never propagates an exception: when invoking the
method raises, or when the response's `.ok()` unwrap raises, it returns a
result with `success = false` and `data = none`, carrying the stage and the
error text in the `raw` field. -/
theorem C2_call_ok_unwrap_no_raise {K D : Type}
    (method : K → Except PyExc (SdkResp D)) (kwargs : K) :
    (∀ e, method kwargs = Except.error e →
      _call_ok_unwrap method kwargs =
        { success := false, data := none, status := none,
          raw := some (RawInfo.invoke e.msg e.trace) }) ∧
    (∀ resp e, method kwargs = Except.ok resp → resp.ok = Except.error e →
      _call_ok_unwrap method kwargs =
        { success := false, data := none, status := resp.status,
          raw := some (RawInfo.ok_unwrap resp.status resp.dataAttr e.msg) }) := by
  constructor
  · intro e he
    simp [_call_ok_unwrap, he]
  · intro resp e hresp hok
    simp [_call_ok_unwrap, hresp, hok]

/-- Witness for C2: a method whose invocation raises. -/
theorem C2_call_ok_unwrap_no_raise_witness :
    _call_ok_unwrap
        (fun _ : Unit => (Except.error ⟨"boom", "tb"⟩ : Except PyExc (SdkResp Nat)))
        () =
      { success := false, data := none, status := none,
        raw := some (RawInfo.invoke "boom" "tb") } :=
  (C2_call_ok_unwrap_no_raise
      (fun _ : Unit => (Except.error ⟨"boom", "tb"⟩ : Except PyExc (SdkResp Nat)))
      ()).1 ⟨"boom", "tb"⟩ rfl

/-- C3: when the method invocation succeeds and the response's `.ok()` returns
a payload without raising, `_call_ok_unwrap` returns exactly the dictionary
with `success = true`, `data` = that payload, `status = 200`, `raw = none`. -/
theorem C3_call_ok_unwrap_success {K D : Type}
    (method : K → Except PyExc (SdkResp D)) (kwargs : K)
    (resp : SdkResp D) (payload : D)
    (hm : method kwargs = Except.ok resp) (hok : resp.ok = Except.ok payload) :
    _call_ok_unwrap method kwargs =
      { success := true, data := some payload, status := some 200,
        raw := none } := by
  simp [_call_ok_unwrap, hm, hok]

/-- Witness for C3: a method that succeeds with payload 7. -/
theorem C3_call_ok_unwrap_success_witness :
    _call_ok_unwrap
        (fun _ : Unit =>
          (Except.ok { ok := Except.ok 7, status := some 200, dataAttr := none } :
            Except PyExc (SdkResp Nat)))
        () =
      { success := true, data := some 7, status := some 200, raw := none } :=
  C3_call_ok_unwrap_success _ ()
    { ok := Except.ok 7, status := some 200, dataAttr := none } 7 rfl rfl

/-! ## Theorems about the Load-presets handler -/

/-- C5 counterexample: a file parsing to the JSON array `[1]`, which is a list
but not a list of strings, replaces the presets with no error message, so the
claim "replaces only when the file parses as a JSON array of strings" fails. -/
theorem C5_load_presets_counterexample :
    load_presets (some (Except.ok (JVal.jarr [JVal.jnum 1]))) [JVal.jstr "a"] =
      ([JVal.jnum 1], none) ∧
    isStringArray (JVal.jarr [JVal.jnum 1]) = false := by
  constructor <;> rfl

/-- C5 amended: the Load operation replaces the session presets exactly when
the file parses as a JSON array (of any element type, since the code only
checks `isinstance(data, list)`); a parsed non-array displays the error and
leaves the presets unchanged, as do a parse failure and a missing file. -/
theorem C5_load_presets_amended (file : Option (Except String JVal))
    (presets : List JVal) :
    (∀ items, file = some (Except.ok (JVal.jarr items)) →
      load_presets file presets = (items, none)) ∧
    (∀ v, file = some (Except.ok v) → (∀ items, v ≠ JVal.jarr items) →
      load_presets file presets =
        (presets, some "File did not contain a list of strings.")) ∧
    (∀ e, file = some (Except.error e) →
      load_presets file presets = (presets, some ("Load failed: " ++ e))) ∧
    (file = none →
      load_presets file presets = (presets, some "No saved file found yet.")) := by
  refine ⟨?_, ?_, ?_, ?_⟩
  · intro items h; subst h; rfl
  · intro v h hv; subst h
    cases v with
    | jarr items => exact absurd rfl (hv items)
    | jnull => rfl
    | jbool b => rfl
    | jnum n => rfl
    | jstr s => rfl
    | jobj fields => rfl
  · intro e h; subst h; rfl
  · intro h; subst h; rfl

/-- Witness for C5: loading a parsed array of strings replaces the presets. -/
theorem C5_load_presets_amended_witness :
    load_presets (some (Except.ok (JVal.jarr [JVal.jstr "x"]))) [] =
      ([JVal.jstr "x"], none) :=
  (C5_load_presets_amended (some (Except.ok (JVal.jarr [JVal.jstr "x"]))) []).1
    [JVal.jstr "x"] rfl

/-! ## Python object graph model for discovery and resolution -/

/-- A node of the Python object graph seen by the reflection helpers: its
`id()`, whether `callable(obj)` holds, whether it is one of the primitive
instance types skipped by the walk, the text `_sig_str` reports for it, whether
`dir()` succeeds on it, and its non-underscore-filtered attribute list. An
attribute entry `(n, none)` is a name listed by `dir` for which `getattr`
raises; `(n, some c)` is a readable attribute with value `c`. -/
inductive PyVal : Type where
  | mk (oid : Nat) (callableB : Bool) (primB : Bool) (sigStr : String)
       (dirOkB : Bool) (attrs : List (String × Option PyVal))

def PyVal.oid : PyVal → Nat
  | .mk i _ _ _ _ _ => i

def PyVal.callableB : PyVal → Bool
  | .mk _ c _ _ _ _ => c

def PyVal.primB : PyVal → Bool
  | .mk _ _ p _ _ _ => p

def PyVal.sigStr : PyVal → String
  | .mk _ _ _ s _ _ => s

def PyVal.dirOkB : PyVal → Bool
  | .mk _ _ _ _ d _ => d

def PyVal.attrs : PyVal → List (String × Option PyVal)
  | .mk _ _ _ _ _ a => a

/-- Python `getattr(v, n)`: the first attribute entry named `n`, yielding a
value only when reading it does not raise. -/
def getAttr (v : PyVal) (n : String) : Option PyVal :=
  match v.attrs.lookup n with
  | some (some c) => some c
  | _ => none

/-- Following a list of attribute segments from a root object, as
`reduce(getattr, parts, root)` does; `none` when some access raises. -/
def resolveSegs : PyVal → List String → Option PyVal
  | v, [] => some v
  | v, s :: rest =>
    match getAttr v s with
    | some c => resolveSegs c rest
    | none => none

/-- Joining path segments with dots, the shape `f"{path}.{n}"` builds. -/
def dotJoin : List String → String
  | [] => ""
  | [s] => s
  | s :: rest => s ++ "." ++ dotJoin rest

/-- Well-formedness of an attribute name list as `dir()` guarantees it:
names are nonempty identifiers and pairwise distinct. -/
def attrKeysOk : List String → Bool
  | [] => true
  | s :: rest => (s != "") && decide (s ∉ rest) && attrKeysOk rest

mutual
/-- Well-formedness of an object graph: every node's `dir` listing has
distinct nonempty names, recursively. -/
def wfVal : PyVal → Bool
  | .mk _ _ _ _ _ attrs => attrKeysOk (attrs.map Prod.fst) && wfAttrs attrs

def wfAttrs : List (String × Option PyVal) → Bool
  | [] => true
  | (_, none) :: rest => wfAttrs rest
  | (_, some c) :: rest => wfVal c && wfAttrs rest
end

/-- A discovered method record, `{"path": ..., "signature": ...}`. -/
structure DiscRec where
  path : String
  signature : String
deriving DecidableEq, Repr

/-- The mutable state of `_discover_methods`: the `seen` id set and the
`results` list, in encounter order. -/
structure WalkSt where
  seen : List Nat
  results : List DiscRec
deriving DecidableEq, Repr

mutual
/-- Embeds the inner `walk` of `_discover_methods`: stop beyond `max_depth`,
stop when `dir` raises, otherwise scan the attribute list in order. -/
def walk (maxDepth : Nat) (v : PyVal) (path : String) (depth : Nat)
    (st : WalkSt) : WalkSt :=
  match v with
  | .mk _ _ _ _ dOk attrs =>
    if maxDepth < depth then st
    else if dOk then walkAttrs maxDepth attrs path depth st
    else st

/-- The per-name loop body of `walk`: skip underscore names and unreadable
attributes, record callables, skip primitive instances and already-seen ids,
and recurse into fresh composite objects. -/
def walkAttrs (maxDepth : Nat) (l : List (String × Option PyVal))
    (path : String) (depth : Nat) (st : WalkSt) : WalkSt :=
  match l with
  | [] => st
  | (n, c) :: rest =>
    if n.startsWith "_" then walkAttrs maxDepth rest path depth st
    else
      match c with
      | none => walkAttrs maxDepth rest path depth st
      | some child =>
        if child.callableB then
          walkAttrs maxDepth rest path depth
            { st with results := st.results ++
                [⟨if path = "" then n else path ++ "." ++ n, child.sigStr⟩] }
        else if child.primB then
          walkAttrs maxDepth rest path depth st
        else if child.oid ∈ st.seen then
          walkAttrs maxDepth rest path depth st
        else
          walkAttrs maxDepth rest path depth
            (walk maxDepth child (if path = "" then n else path ++ "." ++ n)
              (depth + 1) { st with seen := child.oid :: st.seen })
end

/-- Embeds `_discover_methods`: walk from the root with empty path and depth
0, then sort the records by their dotted path. -/
def _discover_methods (root : PyVal) (maxDepth : Nat) : List DiscRec :=
  (walk maxDepth root "" 0 ⟨[], []⟩).results.mergeSort
    (fun a b => decide (a.path ≤ b.path))

/-- A single-quote character, used to build the resolver error text. -/
def sQuote : String := String.singleton (Char.ofNat 39)

/-- Python `dotted.split(".")`: split on each occurrence of the dot character
(character 46), keeping empty segments, implemented structurally over the
character list. -/
def splitDotAux (acc : List Char) : List Char → List String
  | [] => [String.mk acc.reverse]
  | c :: rest =>
    if c = Char.ofNat 46 then String.mk acc.reverse :: splitDotAux [] rest
    else splitDotAux (c :: acc) rest

/-- Python `dotted.split(".")` on a whole string. -/
def splitDot (s : String) : List String := splitDotAux [] s.data

/-- Embeds `_resolve_method`: split the dotted string, drop empty segments,
follow the segments with `getattr`, and demand a callable; failures become a
`RuntimeError` whose message embeds the dotted path. -/
def _resolve_method (root : PyVal) (dotted : String) : Except String PyVal :=
  match resolveSegs root ((splitDot dotted).filter (fun p => p != "")) with
  | none =>
      Except.error ("Could not resolve method " ++ sQuote ++ dotted ++ sQuote ++
        ": " ++ "attribute error")
  | some obj =>
      if obj.callableB then Except.ok obj
      else
        Except.error ("Could not resolve method " ++ sQuote ++ dotted ++ sQuote ++
          ": " ++ ("Resolved object is not callable: " ++ dotted))

/-- Formalizes the claim wording only: a record's path is witnessed by a
nonempty segment list of bounded length that resolves from the root to a
callable object. -/
def GoodRec (root : PyVal) (maxDepth : Nat) (r : DiscRec) : Prop :=
  ∃ segs : List String, segs ≠ [] ∧ segs.length ≤ maxDepth + 1 ∧
    r.path = dotJoin segs ∧
    ∃ v, resolveSegs root segs = some v ∧ v.callableB = true

/-! ## Lemmas about the object-graph model -/

theorem keysOk_ne_empty (l : List String) (hok : attrKeysOk l = true)
    (s : String) (hs : s ∈ l) : s ≠ "" := by
  induction l with
  | nil => simp at hs
  | cons a rest ih =>
      simp only [attrKeysOk, Bool.and_eq_true] at hok
      rcases List.mem_cons.mp hs with rfl | h2
      · simpa using hok.1.1
      · exact ih hok.2 h2

theorem keysOk_lookup {β : Type} (l : List (String × β)) (n : String) (c : β)
    (hok : attrKeysOk (l.map Prod.fst) = true) (hmem : (n, c) ∈ l) :
    l.lookup n = some c := by
  induction l with
  | nil => simp at hmem
  | cons p rest ih =>
      obtain ⟨m, d⟩ := p
      simp only [List.map_cons, attrKeysOk, Bool.and_eq_true] at hok
      obtain ⟨⟨hne, hnc⟩, hrest⟩ := hok
      rcases List.mem_cons.mp hmem with heq | hmem2
      · injection heq with h1 h2
        subst h1; subst h2
        simp [List.lookup]
      · have hmemkey : n ∈ rest.map Prod.fst :=
          List.mem_map.mpr ⟨(n, c), hmem2, rfl⟩
        have hnm : n ≠ m := by
          intro h; subst h
          exact (of_decide_eq_true hnc) hmemkey
        have hb : (n == m) = false := by simp [hnm]
        simp only [List.lookup, hb]
        exact ih hrest hmem2

theorem wfAttrs_mem (l : List (String × Option PyVal)) (n : String) (c : PyVal)
    (hwf : wfAttrs l = true) (hmem : (n, some c) ∈ l) : wfVal c = true := by
  induction l with
  | nil => simp at hmem
  | cons p rest ih =>
      obtain ⟨m, d⟩ := p
      cases d with
      | none =>
          simp only [wfAttrs] at hwf
          rcases List.mem_cons.mp hmem with heq | hmem2
          · simp at heq
          · exact ih hwf hmem2
      | some c2 =>
          simp only [wfAttrs, Bool.and_eq_true] at hwf
          rcases List.mem_cons.mp hmem with heq | hmem2
          · injection heq with h1 h2
            obtain rfl : c2 = c := by simpa using h2.symm
            exact hwf.1
          · exact ih hwf.2 hmem2

theorem wfVal_attr (v : PyVal) (hwf : wfVal v = true) (n : String) (c : PyVal)
    (hmem : (n, some c) ∈ v.attrs) :
    n ≠ "" ∧ getAttr v n = some c ∧ wfVal c = true := by
  cases v with
  | mk i cb pb sg dOk attrs =>
      simp only [wfVal, Bool.and_eq_true] at hwf
      obtain ⟨hkeys, hattrs⟩ := hwf
      have hmem2 : (n, some c) ∈ attrs := by simpa [PyVal.attrs] using hmem
      refine ⟨?_, ?_, wfAttrs_mem attrs n c hattrs hmem2⟩
      · exact keysOk_ne_empty _ hkeys n
          (List.mem_map.mpr ⟨(n, some c), hmem2, rfl⟩)
      · have hl : attrs.lookup n = some (some c) :=
          keysOk_lookup attrs n (some c) hkeys hmem2
        simp [getAttr, PyVal.attrs, hl]

theorem dotJoin_snoc (l : List String) (n : String) (hne : l ≠ []) :
    dotJoin (l ++ [n]) = dotJoin l ++ "." ++ n := by
  induction l with
  | nil => exact absurd rfl hne
  | cons a rest ih =>
      cases rest with
      | nil => rfl
      | cons b r2 =>
          have ih2 := ih (by simp)
          show dotJoin (a :: b :: (r2 ++ [n])) = dotJoin (a :: b :: r2) ++ "." ++ n
          simp only [List.cons_append] at ih2
          simp only [dotJoin]
          rw [ih2]
          simp [String.append_assoc]

theorem append_dot_ne_empty (a b : String) : a ++ "." ++ b ≠ "" := by
  intro h
  have := congrArg String.length h
  simp [String.length_append] at this
  exact absurd this.1.2 (by decide)

theorem resolveSegs_snoc (root : PyVal) (segs : List String) (n : String) :
    resolveSegs root (segs ++ [n]) =
      match resolveSegs root segs with
      | some v => getAttr v n
      | none => none := by
  induction segs generalizing root with
  | nil =>
      cases h : getAttr root n <;> simp [resolveSegs, h]
  | cons s rest ih =>
      simp only [List.cons_append, resolveSegs]
      cases h : getAttr root s with
      | none => simp
      | some c => simpa using ih c

theorem walk_stop (maxDepth : Nat) (v : PyVal) (path : String) (depth : Nat)
    (st : WalkSt) (h : maxDepth < depth) :
    walk maxDepth v path depth st = st := by
  cases v with
  | mk i cb pb sg dOk attrs =>
      simp only [walk]
      rw [if_pos h]

theorem walk_dir (maxDepth : Nat) (i : Nat) (cb pb : Bool) (sg : String)
    (attrs : List (String × Option PyVal)) (path : String) (depth : Nat)
    (st : WalkSt) (h : ¬ maxDepth < depth) :
    walk maxDepth (.mk i cb pb sg true attrs) path depth st =
      walkAttrs maxDepth attrs path depth st := by
  simp only [walk]
  rw [if_neg h]
  simp

theorem walk_nodir (maxDepth : Nat) (i : Nat) (cb pb : Bool) (sg : String)
    (attrs : List (String × Option PyVal)) (path : String) (depth : Nat)
    (st : WalkSt) (h : ¬ maxDepth < depth) :
    walk maxDepth (.mk i cb pb sg false attrs) path depth st = st := by
  simp only [walk]
  rw [if_neg h]
  simp

theorem walkAttrs_cons_underscore (maxDepth : Nat) (n : String)
    (c : Option PyVal) (rest : List (String × Option PyVal)) (path : String)
    (depth : Nat) (st : WalkSt) (h : n.startsWith "_" = true) :
    walkAttrs maxDepth ((n, c) :: rest) path depth st =
      walkAttrs maxDepth rest path depth st := by
  cases c with
  | none => simp only [walkAttrs]; rw [if_pos h]
  | some child => simp only [walkAttrs]; rw [if_pos h]

theorem walkAttrs_cons_none (maxDepth : Nat) (n : String)
    (rest : List (String × Option PyVal)) (path : String) (depth : Nat)
    (st : WalkSt) (h : ¬ n.startsWith "_" = true) :
    walkAttrs maxDepth ((n, none) :: rest) path depth st =
      walkAttrs maxDepth rest path depth st := by
  simp only [walkAttrs, h]
  simp

theorem walkAttrs_cons_callable (maxDepth : Nat) (n : String) (child : PyVal)
    (rest : List (String × Option PyVal)) (path : String) (depth : Nat)
    (st : WalkSt) (h1 : ¬ n.startsWith "_" = true)
    (h2 : child.callableB = true) :
    walkAttrs maxDepth ((n, some child) :: rest) path depth st =
      walkAttrs maxDepth rest path depth
        { st with results := st.results ++
            [⟨if path = "" then n else path ++ "." ++ n, child.sigStr⟩] } := by
  simp only [walkAttrs, h1, h2]
  simp

theorem walkAttrs_cons_prim (maxDepth : Nat) (n : String) (child : PyVal)
    (rest : List (String × Option PyVal)) (path : String) (depth : Nat)
    (st : WalkSt) (h1 : ¬ n.startsWith "_" = true)
    (h2 : ¬ child.callableB = true) (h3 : child.primB = true) :
    walkAttrs maxDepth ((n, some child) :: rest) path depth st =
      walkAttrs maxDepth rest path depth st := by
  simp only [walkAttrs, h1, h2, h3]
  simp

theorem walkAttrs_cons_seen (maxDepth : Nat) (n : String) (child : PyVal)
    (rest : List (String × Option PyVal)) (path : String) (depth : Nat)
    (st : WalkSt) (h1 : ¬ n.startsWith "_" = true)
    (h2 : ¬ child.callableB = true) (h3 : ¬ child.primB = true)
    (h4 : child.oid ∈ st.seen) :
    walkAttrs maxDepth ((n, some child) :: rest) path depth st =
      walkAttrs maxDepth rest path depth st := by
  simp only [walkAttrs, h1, h2, h3, h4]
  simp

theorem walkAttrs_cons_recurse (maxDepth : Nat) (n : String) (child : PyVal)
    (rest : List (String × Option PyVal)) (path : String) (depth : Nat)
    (st : WalkSt) (h1 : ¬ n.startsWith "_" = true)
    (h2 : ¬ child.callableB = true) (h3 : ¬ child.primB = true)
    (h4 : child.oid ∉ st.seen) :
    walkAttrs maxDepth ((n, some child) :: rest) path depth st =
      walkAttrs maxDepth rest path depth
        (walk maxDepth child (if path = "" then n else path ++ "." ++ n)
          (depth + 1) { st with seen := child.oid :: st.seen }) := by
  simp only [walkAttrs, h1, h2, h3, h4]
  simp

theorem full_eq_dotJoin (path n : String) (segs : List String)
    (h3 : path = dotJoin segs) (h4 : path = "" → segs = []) :
    (if path = "" then n else path ++ "." ++ n) = dotJoin (segs ++ [n]) := by
  by_cases hp : path = ""
  · have hs : segs = [] := h4 hp
    subst hs
    simp [hp, dotJoin]
  · have hsegs : segs ≠ [] := by
      intro hh; subst hh
      simp [dotJoin] at h3
      exact hp h3
    rw [dotJoin_snoc segs n hsegs, ← h3, if_neg hp]

theorem full_ne_empty (path n : String) (hn : n ≠ "") :
    (if path = "" then n else path ++ "." ++ n) ≠ "" := by
  by_cases hp : path = ""
  · simpa [hp] using hn
  · rw [if_neg hp]
    exact append_dot_ne_empty path n

theorem walk_sound (root : PyVal) (maxDepth : Nat) :
    ∀ (v : PyVal) (path : String) (depth : Nat) (st : WalkSt),
      ∀ segs : List String,
        resolveSegs root segs = some v →
        wfVal v = true →
        path = dotJoin segs →
        (path = "" → segs = []) →
        segs.length = depth →
        (∀ r ∈ st.results, GoodRec root maxDepth r) →
        ∀ r ∈ (walk maxDepth v path depth st).results,
          GoodRec root maxDepth r := by
  refine walk.induct maxDepth
    (fun v path depth st =>
      ∀ segs : List String,
        resolveSegs root segs = some v →
        wfVal v = true →
        path = dotJoin segs →
        (path = "" → segs = []) →
        segs.length = depth →
        (∀ r ∈ st.results, GoodRec root maxDepth r) →
        ∀ r ∈ (walk maxDepth v path depth st).results,
          GoodRec root maxDepth r)
    (fun l path depth st =>
      ∀ (segs : List String) (vp : PyVal),
        resolveSegs root segs = some vp →
        (∀ n c, (n, some c) ∈ l →
          n ≠ "" ∧ getAttr vp n = some c ∧ wfVal c = true) →
        path = dotJoin segs →
        (path = "" → segs = []) →
        segs.length = depth →
        depth ≤ maxDepth →
        (∀ r ∈ st.results, GoodRec root maxDepth r) →
        ∀ r ∈ (walkAttrs maxDepth l path depth st).results,
          GoodRec root maxDepth r)
    ?_ ?_ ?_ ?_ ?_ ?_ ?_ ?_ ?_ ?_
  · -- depth exceeded
    intro path depth st i cb pb sg dOk attrs h
    intro segs h1 h2 h3 h4 h5 h6 r hr
    rw [walk_stop maxDepth _ path depth st h] at hr
    exact h6 r hr
  · -- dir succeeds, scan attributes
    intro path depth st i cb pb sg attrs hnd ih
    intro segs h1 h2 h3 h4 h5 h6 r hr
    rw [walk_dir maxDepth i cb pb sg attrs path depth st hnd] at hr
    refine ih segs (PyVal.mk i cb pb sg true attrs) h1 ?_ h3 h4 h5 (by omega) h6 r hr
    intro n c hm
    exact wfVal_attr (PyVal.mk i cb pb sg true attrs) h2 n c hm
  · -- dir raises
    intro path depth st i cb pb sg dOk attrs hnd hdok
    intro segs h1 h2 h3 h4 h5 h6 r hr
    have hdf : dOk = false := by
      cases dOk
      · rfl
      · exact absurd rfl hdok
    subst hdf
    rw [walk_nodir maxDepth i cb pb sg attrs path depth st hnd] at hr
    exact h6 r hr
  · -- empty attribute list
    intro path depth st
    intro segs vp h1 hl h3 h4 h5 h6 h7 r hr
    simp only [walkAttrs] at hr
    exact h7 r hr
  · -- underscore name skipped
    intro path depth st n c rest hus ih
    intro segs vp h1 hl h3 h4 h5 h6 h7 r hr
    rw [walkAttrs_cons_underscore maxDepth n c rest path depth st hus] at hr
    exact ih segs vp h1 (fun m d hm => hl m d (List.mem_cons_of_mem _ hm))
      h3 h4 h5 h6 h7 r hr
  · -- unreadable attribute skipped
    intro path depth st n rest hus ih
    intro segs vp h1 hl h3 h4 h5 h6 h7 r hr
    rw [walkAttrs_cons_none maxDepth n rest path depth st hus] at hr
    exact ih segs vp h1 (fun m d hm => hl m d (List.mem_cons_of_mem _ hm))
      h3 h4 h5 h6 h7 r hr
  · -- callable recorded
    intro path depth st n rest hus child hcall ih
    intro segs vp h1 hl h3 h4 h5 h6 h7 r hr
    rw [walkAttrs_cons_callable maxDepth n child rest path depth st hus hcall] at hr
    refine ih segs vp h1 (fun m d hm => hl m d (List.mem_cons_of_mem _ hm))
      h3 h4 h5 h6 ?_ r hr
    intro r2 hr2
    rcases List.mem_append.mp hr2 with hold | hnew
    · exact h7 r2 hold
    · have hr2eq : r2 =
          ⟨if path = "" then n else path ++ "." ++ n, child.sigStr⟩ := by
        simpa using hnew
      subst hr2eq
      obtain ⟨hnne, hget, hwfc⟩ := hl n child (List.mem_cons_self _ _)
      refine ⟨segs ++ [n], by simp, ?_, ?_, child, ?_, hcall⟩
      · simp [h5]
        omega
      · exact (full_eq_dotJoin path n segs h3 h4)
      · rw [resolveSegs_snoc, h1]
        exact hget
  · -- primitive instance skipped
    intro path depth st n rest hus child hncall hprim ih
    intro segs vp h1 hl h3 h4 h5 h6 h7 r hr
    rw [walkAttrs_cons_prim maxDepth n child rest path depth st hus hncall hprim] at hr
    exact ih segs vp h1 (fun m d hm => hl m d (List.mem_cons_of_mem _ hm))
      h3 h4 h5 h6 h7 r hr
  · -- already-seen id skipped
    intro path depth st n rest hus child hncall hnprim hseen ih
    intro segs vp h1 hl h3 h4 h5 h6 h7 r hr
    rw [walkAttrs_cons_seen maxDepth n child rest path depth st hus hncall hnprim hseen] at hr
    exact ih segs vp h1 (fun m d hm => hl m d (List.mem_cons_of_mem _ hm))
      h3 h4 h5 h6 h7 r hr
  · -- recurse into fresh composite object
    intro path depth st n rest hus child hncall hnprim hnseen ih1 ih2
    intro segs vp h1 hl h3 h4 h5 h6 h7 r hr
    rw [walkAttrs_cons_recurse maxDepth n child rest path depth st hus hncall hnprim hnseen] at hr
    obtain ⟨hnne, hget, hwfc⟩ := hl n child (List.mem_cons_self _ _)
    have hres : resolveSegs root (segs ++ [n]) = some child := by
      rw [resolveSegs_snoc, h1]
      exact hget
    refine ih2 segs vp h1 (fun m d hm => hl m d (List.mem_cons_of_mem _ hm))
      h3 h4 h5 h6 ?_ r hr
    exact ih1 (segs ++ [n]) hres hwfc
      (full_eq_dotJoin path n segs h3 h4)
      (fun hc => absurd hc (full_ne_empty path n hnne))
      (by simp [h5]) h7

/-! ## Theorems about discovery and resolution -/

/-- C6: for every root object (with well-formed `dir` listings) and depth
bound, `_discover_methods` returns records sorted in non-decreasing order by
dotted path, and every listed path is a dot-join of at most `max_depth + 1`
attribute segments that resolve from the root to a callable object. -/
theorem C6_discover_methods (root : PyVal) (maxDepth : Nat)
    (hwf : wfVal root = true) :
    List.Pairwise (fun a b : DiscRec => a.path ≤ b.path)
      (_discover_methods root maxDepth) ∧
    ∀ r ∈ _discover_methods root maxDepth, GoodRec root maxDepth r := by
  constructor
  · have hs := @List.sorted_mergeSort DiscRec
      (fun a b => decide (a.path ≤ b.path))
      (fun a b c hab hbc => by
        simp only [decide_eq_true_eq] at *
        exact le_trans hab hbc)
      (fun a b => by
        simp only [Bool.or_eq_true, decide_eq_true_eq]
        exact le_total a.path b.path)
      ((walk maxDepth root "" 0 ⟨[], []⟩).results)
    unfold _discover_methods
    exact hs.imp (fun h => by simpa using h)
  · intro r hr
    unfold _discover_methods at hr
    rw [List.mem_mergeSort] at hr
    exact walk_sound root maxDepth root "" 0 ⟨[], []⟩ [] rfl hwf rfl
      (fun _ => rfl) rfl (by simp) r hr

/-- A small concrete object graph used to witness C6. -/
def sampleRoot : PyVal :=
  PyVal.mk 0 false false "" true
    [("a", some (PyVal.mk 1 true false "(x)" true [])),
     ("b", some (PyVal.mk 2 false false "" true
       [("c", some (PyVal.mk 3 true false "()" true []))]))]

/-- Witness for C6 on a concrete two-level object graph. -/
theorem C6_discover_methods_witness :
    List.Pairwise (fun a b : DiscRec => a.path ≤ b.path)
      (_discover_methods sampleRoot 2) ∧
    ∀ r ∈ _discover_methods sampleRoot 2, GoodRec sampleRoot 2 r :=
  C6_discover_methods sampleRoot 2
    (by simp [sampleRoot, wfVal, wfAttrs, attrKeysOk])

/-- C7: `_resolve_method` either returns the object reached by following the
non-empty dot-separated segments of the string from the root, and that object
is callable, or fails with a message embedding the dotted path; it never
returns a non-callable object. -/
theorem C7_resolve_method (root : PyVal) (dotted : String) :
    (∀ obj, _resolve_method root dotted = Except.ok obj →
      obj.callableB = true ∧
      resolveSegs root ((splitDot dotted).filter (fun p => p != "")) =
        some obj) ∧
    (∀ msg, _resolve_method root dotted = Except.error msg →
      ∃ tail, msg = "Could not resolve method " ++ sQuote ++ dotted ++
        sQuote ++ ": " ++ tail) := by
  unfold _resolve_method
  cases hres : resolveSegs root ((splitDot dotted).filter (fun p => p != "")) with
  | none =>
      constructor
      · intro obj h
        simp at h
      · intro msg h
        simp only [Except.error.injEq] at h
        exact ⟨"attribute error", h.symm⟩
  | some obj0 =>
      by_cases hc : obj0.callableB = true
      · constructor
        · intro obj h
          simp [hc] at h
          subst h
          exact ⟨hc, rfl⟩
        · intro msg h
          simp [hc] at h
      · constructor
        · intro obj h
          simp [hc] at h
        · intro msg h
          simp [hc] at h
          exact ⟨"Resolved object is not callable: " ++ dotted, h.symm⟩

/-- Witness for C7: resolving the empty dotted string on a callable root
returns the root itself. -/
theorem C7_resolve_method_witness :
    (PyVal.mk 0 true false "()" true []).callableB = true ∧
    resolveSegs (PyVal.mk 0 true false "()" true [])
        ((splitDot "").filter (fun p => p != "")) =
      some (PyVal.mk 0 true false "()" true []) :=
  (C7_resolve_method (PyVal.mk 0 true false "()" true []) "").1
    (PyVal.mk 0 true false "()" true []) rfl

/-! ## Kwargs-to-model coercion -/

/-- A Python value as the kwargs coercion helper classifies it: a plain dict,
a list, a SimpleNamespace built from a dict, a coerced SDK model instance, or
anything else. -/
inductive PVal where
  | vdict (fields : List (String × PVal))
  | vlist (elems : List PVal)
  | vns (fields : List (String × PVal))
  | vmodel (tag : Nat) (payload : PVal)
  | vother (tag : Nat)

/-- The runtime behavior of a parameter type annotation, as probed by
`_coerce_kwargs_to_models`: which hooks exist (`model_validate`, `parse_obj`,
`__args__` with a list/tuple `__origin__`, and the element type hook), and
what each hook returns or raises (`Except.error`). -/
structure Annot where
  hasModelValidate : Bool
  modelValidate : PVal → Except Unit PVal
  hasParseObj : Bool
  parseObj : PVal → Except Unit PVal
  hasListArgs : Bool
  elemHasModelValidate : Bool
  elemModelValidate : PVal → Except Unit PVal

/-- The element-wise list coercion
`[elem.model_validate(x) if isinstance(x, dict) else x for x in val]`,
propagating the first raised exception. -/
def listValidate (f : PVal → Except Unit PVal) : List PVal → Except Unit (List PVal)
  | [] => Except.ok []
  | x :: rest =>
      match x with
      | PVal.vdict d =>
          match f (PVal.vdict d) with
          | Except.ok y =>
              match listValidate f rest with
              | Except.ok ys => Except.ok (y :: ys)
              | Except.error e => Except.error e
          | Except.error e => Except.error e
      | other =>
          match listValidate f rest with
          | Except.ok ys => Except.ok (other :: ys)
          | Except.error e => Except.error e

/-- Outcome of the annotated `try` block for one parameter: either a value was
assigned and the loop continued, or control fell through to the `body`
fallback (no branch fired, or an exception was caught and ignored). -/
inductive CoerceStep where
  | assigned (v : PVal)
  | fellThrough

/-- The annotated coercion attempt of `_coerce_kwargs_to_models` for one
parameter value. -/
def annStep (ann : Annot) (val : PVal) : CoerceStep :=
  match val with
  | PVal.vdict d =>
      if ann.hasModelValidate then
        match ann.modelValidate (PVal.vdict d) with
        | Except.ok m => CoerceStep.assigned m
        | Except.error _ => CoerceStep.fellThrough
      else if ann.hasParseObj then
        match ann.parseObj (PVal.vdict d) with
        | Except.ok m => CoerceStep.assigned m
        | Except.error _ => CoerceStep.fellThrough
      else CoerceStep.fellThrough
  | PVal.vlist (x :: xs) =>
      match x with
      | PVal.vdict _ =>
          if ann.hasListArgs then
            if ann.elemHasModelValidate then
              match listValidate ann.elemModelValidate (x :: xs) with
              | Except.ok ys => CoerceStep.assigned (PVal.vlist ys)
              | Except.error _ => CoerceStep.fellThrough
            else CoerceStep.fellThrough
          else CoerceStep.fellThrough
      | _ => CoerceStep.fellThrough
  | _ => CoerceStep.fellThrough

/-- The `body` fallback of the per-parameter loop: a dict value for the
parameter literally named "body" is wrapped in a SimpleNamespace (which
succeeds here because the model's dict keys are strings); everything else is
left as it is. -/
def bodyFallback (name : String) (val : PVal) : PVal :=
  if name = "body" then
    match val with
    | PVal.vdict fields => PVal.vns fields
    | _ => val
  else val

/-- The full per-parameter update of `_coerce_kwargs_to_models`: try the
annotated coercion when an annotation is present (continuing on assignment),
otherwise fall through to the body fallback. -/
def coerceEntry (name : String) (ann : Option Annot) (val : PVal) : PVal :=
  match ann with
  | some a =>
      match annStep a val with
      | CoerceStep.assigned m => m
      | CoerceStep.fellThrough => bodyFallback name val
  | none => bodyFallback name val

/-- Python dict assignment `d[k] = v` for a key already present: replace the
entry named `k`, keeping insertion order. -/
def setKey (m : List (String × PVal)) (k : String) (v : PVal) :
    List (String × PVal) :=
  m.map (fun p => if p.1 = k then (p.1, v) else p)

/-- Embeds `_coerce_kwargs_to_models`: `sig` is `none` when
`inspect.signature` raises (generic body fallback only), otherwise the
signature's parameter list with each annotation (`none` for
`inspect._empty`). The loop touches only keys that are both parameter names
and present in the kwargs dict. -/
def _coerce_kwargs_to_models (sig : Option (List (String × Option Annot)))
    (kwargs : List (String × PVal)) : List (String × PVal) :=
  match sig with
  | none =>
      match kwargs.lookup "body" with
      | some (PVal.vdict fields) => setKey kwargs "body" (PVal.vns fields)
      | _ => kwargs
  | some params =>
      params.foldl
        (fun nk p =>
          match nk.lookup p.1 with
          | none => nk
          | some val => setKey nk p.1 (coerceEntry p.1 p.2 val))
        kwargs

theorem setKey_keys (m : List (String × PVal)) (k : String) (v : PVal) :
    (setKey m k v).map Prod.fst = m.map Prod.fst := by
  induction m with
  | nil => rfl
  | cons p rest ih =>
      by_cases hp : p.1 = k <;> simp [setKey, hp] at ih ⊢ <;> exact ih

theorem setKey_lookup_ne (m : List (String × PVal)) (k k2 : String) (v : PVal)
    (h : k ≠ k2) : (setKey m k2 v).lookup k = m.lookup k := by
  induction m with
  | nil => rfl
  | cons p rest ih =>
      obtain ⟨a, b⟩ := p
      dsimp only [setKey, List.map_cons]
      by_cases ha : a = k2
      · rw [if_pos ha]
        have hk : (k == a) = false := by
          subst ha; simp [h]
        simp only [List.lookup, hk]
        exact ih
      · rw [if_neg ha]
        cases hk : (k == a) with
        | true => simp only [List.lookup, hk]
        | false =>
            simp only [List.lookup, hk]
            exact ih

/-- C8: with an inspectable signature, `_coerce_kwargs_to_models` returns a
dictionary with exactly the keys of the input, and every entry whose key is
not a signature parameter name keeps its original value. -/
theorem C8_coerce_kwargs_frame (params : List (String × Option Annot))
    (kwargs : List (String × PVal)) :
    (_coerce_kwargs_to_models (some params) kwargs).map Prod.fst =
      kwargs.map Prod.fst ∧
    ∀ k, k ∉ params.map Prod.fst →
      (_coerce_kwargs_to_models (some params) kwargs).lookup k =
        kwargs.lookup k := by
  induction params generalizing kwargs with
  | nil => exact ⟨rfl, fun k _ => rfl⟩
  | cons p rest ih =>
      have hunfold : _coerce_kwargs_to_models (some (p :: rest)) kwargs =
          _coerce_kwargs_to_models (some rest)
            (match kwargs.lookup p.1 with
             | none => kwargs
             | some val => setKey kwargs p.1 (coerceEntry p.1 p.2 val)) := rfl
      rw [hunfold]
      cases hl : kwargs.lookup p.1 with
      | none =>
          exact ⟨(ih kwargs).1,
            fun k hk => (ih kwargs).2 k
              (fun hh => hk (List.mem_cons_of_mem _ hh))⟩
      | some val =>
          constructor
          · rw [(ih (setKey kwargs p.1 (coerceEntry p.1 p.2 val))).1, setKey_keys]
          · intro k hk
            have hk1 : k ≠ p.1 := by
              intro hh
              exact hk (by simp [hh])
            have hk2 : k ∉ rest.map Prod.fst := by
              intro hh
              exact hk (by simp [hh])
            rw [(ih (setKey kwargs p.1 (coerceEntry p.1 p.2 val))).2 k hk2,
              setKey_lookup_ne kwargs k p.1 _ hk1]

/-- Witness for C8: a signature with only a "body" parameter leaves the
non-parameter entry "x" untouched and preserves the key list. -/
theorem C8_coerce_kwargs_frame_witness :
    (_coerce_kwargs_to_models (some [("body", none)])
        [("body", PVal.vdict []), ("x", PVal.vother 0)]).map Prod.fst =
      [("body", PVal.vdict []), ("x", PVal.vother 0)].map Prod.fst ∧
    (_coerce_kwargs_to_models (some [("body", none)])
        [("body", PVal.vdict []), ("x", PVal.vother 0)]).lookup "x" =
      [("body", PVal.vdict []), ("x", PVal.vother 0)].lookup "x" :=
  ⟨(C8_coerce_kwargs_frame [("body", none)]
      [("body", PVal.vdict []), ("x", PVal.vother 0)]).1,
   (C8_coerce_kwargs_frame [("body", none)]
      [("body", PVal.vdict []), ("x", PVal.vother 0)]).2 "x" (by decide)⟩

/-! ## JSON-safe rendering -/

/-- The two classes of exception relevant to `_to_jsonable`: `TypeError`
(the only class its handler catches) and everything else (e.g. the
`ValueError` that `json.dumps` raises on a circular reference). -/
inductive PyErr where
  | typeError
  | otherError
deriving DecidableEq, Repr

/-- An input object as `_to_jsonable` probes it: the optional pydantic hooks
with their outcomes, the dataclass / Enum / bytes type tests with their
conversions, the `json.dumps` serializability probe, the object's own
JSON-value reading when `dumps` accepts it, and its `str()` text. -/
structure JsonableObj where
  modelDump : Option (Except PyErr JVal)
  dictM : Option (Except PyErr JVal)
  isDataclass : Bool
  asdict : Except PyErr JVal
  isEnum : Bool
  enumValue : JVal
  isBytes : Bool
  decoded : String
  dumpsOk : Except PyErr Unit
  selfVal : JVal
  strRepr : String

/-- Embeds `_to_jsonable`: try the pydantic v2/v1 dumps, the dataclass dict,
the enum value, the bytes decode (with `errors="replace"`, which cannot
raise) and the `json.dumps` probe in order; `except TypeError` maps a raised
`TypeError` anywhere in the body to the `{"value": str(obj)}` fallback, while
any other exception class propagates. -/
def _to_jsonable (o : JsonableObj) : Except PyErr JVal :=
  let body : Except PyErr JVal :=
    match o.modelDump with
    | some r => r
    | none =>
      match o.dictM with
      | some r => r
      | none =>
        if o.isDataclass then o.asdict
        else if o.isEnum then Except.ok o.enumValue
        else if o.isBytes then Except.ok (JVal.jstr o.decoded)
        else
          match o.dumpsOk with
          | Except.ok _ => Except.ok o.selfVal
          | Except.error e => Except.error e
  match body with
  | Except.ok v => Except.ok v
  | Except.error PyErr.typeError =>
      Except.ok (JVal.jobj [("value", JVal.jstr o.strRepr)])
  | Except.error PyErr.otherError => Except.error PyErr.otherError

/-- C9 counterexample: an object with none of the conversion hooks whose
`json.dumps` probe raises a non-TypeError exception (concretely, the
`ValueError` that `x = []; x.append(x); json.dumps(x)` raises) makes
`_to_jsonable` propagate the exception instead of returning. -/
theorem C9_to_jsonable_counterexample :
    _to_jsonable
        { modelDump := none, dictM := none, isDataclass := false,
          asdict := Except.ok JVal.jnull, isEnum := false,
          enumValue := JVal.jnull, isBytes := false, decoded := "",
          dumpsOk := Except.error PyErr.otherError, selfVal := JVal.jnull,
          strRepr := "circular list" } =
      Except.error PyErr.otherError := rfl

/-- C9 amended: for every input object whose conversion steps fail only with
`TypeError` (the one exception class the handler catches), `_to_jsonable`
returns without raising, producing one of the documented conversions or the
`{"value": str(obj)}` fallback when serialization fails. -/
theorem C9_to_jsonable_amended (o : JsonableObj)
    (h1 : o.modelDump ≠ some (Except.error PyErr.otherError))
    (h2 : o.dictM ≠ some (Except.error PyErr.otherError))
    (h3 : o.asdict ≠ Except.error PyErr.otherError)
    (h4 : o.dumpsOk ≠ Except.error PyErr.otherError) :
    ∃ v, _to_jsonable o = Except.ok v ∧
      (o.modelDump = some (Except.ok v) ∨ o.dictM = some (Except.ok v) ∨
       o.asdict = Except.ok v ∨ v = o.enumValue ∨ v = JVal.jstr o.decoded ∨
       v = o.selfVal ∨ v = JVal.jobj [("value", JVal.jstr o.strRepr)]) := by
  unfold _to_jsonable
  cases hmd : o.modelDump with
  | some r =>
      cases r with
      | ok v => exact ⟨v, rfl, Or.inl rfl⟩
      | error e =>
          cases e with
          | typeError =>
              exact ⟨JVal.jobj [("value", JVal.jstr o.strRepr)], rfl,
                by simp⟩
          | otherError => exact absurd hmd h1
  | none =>
      cases hdm : o.dictM with
      | some r =>
          cases r with
          | ok v => exact ⟨v, rfl, Or.inr (Or.inl rfl)⟩
          | error e =>
              cases e with
              | typeError =>
                  exact ⟨JVal.jobj [("value", JVal.jstr o.strRepr)], rfl,
                    by simp⟩
              | otherError => exact absurd hdm h2
      | none =>
          by_cases hdc : o.isDataclass
          · cases hac : o.asdict with
            | ok v =>
                refine ⟨v, ?_, Or.inr (Or.inr (Or.inl rfl))⟩
                simp [hdc, hac]
            | error e =>
                cases e with
                | typeError =>
                    refine ⟨JVal.jobj [("value", JVal.jstr o.strRepr)], ?_, by simp⟩
                    simp [hdc, hac]
                | otherError => exact absurd hac h3
          · by_cases hen : o.isEnum
            · refine ⟨o.enumValue, ?_, by simp⟩
              simp [hdc, hen]
            · by_cases hby : o.isBytes
              · refine ⟨JVal.jstr o.decoded, ?_, by simp⟩
                simp [hdc, hen, hby]
              · cases hdu : o.dumpsOk with
                | ok u =>
                    refine ⟨o.selfVal, ?_, by simp⟩
                    simp [hdc, hen, hby, hdu]
                | error e =>
                    cases e with
                    | typeError =>
                        refine ⟨JVal.jobj [("value", JVal.jstr o.strRepr)], ?_, by simp⟩
                        simp [hdc, hen, hby, hdu]
                    | otherError => exact absurd hdu h4

/-- A plain, already-serializable object used to witness C9. -/
def plainObj : JsonableObj :=
  { modelDump := none, dictM := none, isDataclass := false,
    asdict := Except.ok JVal.jnull, isEnum := false,
    enumValue := JVal.jnull, isBytes := false, decoded := "",
    dumpsOk := Except.ok (), selfVal := JVal.jnum 7, strRepr := "7" }

/-- Witness for C9: a plain serializable object yields one of the documented
conversion results. -/
theorem C9_to_jsonable_amended_witness :
    ∃ v, _to_jsonable plainObj = Except.ok v ∧
      (plainObj.modelDump = some (Except.ok v) ∨
       plainObj.dictM = some (Except.ok v) ∨
       plainObj.asdict = Except.ok v ∨ v = plainObj.enumValue ∨
       v = JVal.jstr plainObj.decoded ∨ v = plainObj.selfVal ∨
       v = JVal.jobj [("value", JVal.jstr plainObj.strRepr)]) :=
  C9_to_jsonable_amended plainObj (by simp [plainObj]) (by simp [plainObj])
    (by simp [plainObj]) (by simp [plainObj])

/-! ## JSON-schema templates -/

/-- The primitive fallback of `_schema_to_template`: the schema's "default"
when present, else the first element of its "enum" (Python `enum[0]`, which
raises unless the value is a nonempty list — modelled as `Except.error` for
every other shape), else None. -/
def schemaPrim (fields : List (String × JVal)) : Except Unit JVal :=
  match fields.lookup "default" with
  | some v => Except.ok v
  | none =>
      match fields.lookup "enum" with
      | some (JVal.jarr (e :: _)) => Except.ok e
      | some _ => Except.error ()
      | none => Except.ok JVal.jnull

mutual
/-- Embeds `_schema_to_template`: return None (here `JVal.jnull`) when depth
is negative or the schema is not a dict; recurse into "properties" values and
"items" with `depth - 1`; otherwise use the primitive fallback. Iterating
`props.items()` on a non-dict "properties" raises, modelled as
`Except.error`. The recursion is well-founded on `depth`, which strictly
decreases at every recursive call, exactly as in the source. -/
def _schema_to_template (schema : JVal) (depth : Int) : Except Unit JVal :=
  if _hd : depth < 0 then Except.ok JVal.jnull
  else
    match schema with
    | JVal.jobj fields =>
        match fields.lookup "type" with
        | some (JVal.jstr sv) =>
            if sv = "object" then
              match (fields.lookup "properties").getD (JVal.jobj []) with
              | JVal.jobj pfields =>
                  match stFields pfields (depth - 1) with
                  | Except.ok out => Except.ok (JVal.jobj out)
                  | Except.error e => Except.error e
              | _ => Except.error ()
            else if sv = "array" then
              match _schema_to_template
                  ((fields.lookup "items").getD (JVal.jobj [])) (depth - 1) with
              | Except.ok t => Except.ok (JVal.jarr [t])
              | Except.error e => Except.error e
            else schemaPrim fields
        | _ => schemaPrim fields
    | _ => Except.ok JVal.jnull
termination_by ((depth + 1).toNat, 0)

/-- The `for k, v in props.items(): out[k] = _schema_to_template(v, depth-1)`
loop, building the output dict in order and propagating a raise. -/
def stFields (l : List (String × JVal)) (depth : Int) :
    Except Unit (List (String × JVal)) :=
  match l with
  | [] => Except.ok []
  | (k, v) :: rest =>
      match _schema_to_template v depth with
      | Except.ok t =>
          match stFields rest depth with
          | Except.ok ts => Except.ok ((k, t) :: ts)
          | Except.error e => Except.error e
      | Except.error e => Except.error e
termination_by ((depth + 1).toNat, l.length + 1)
end

mutual
/-- Fuel-indexed variant of `_schema_to_template`, used to state C10's
termination bound: fuel `depth + 2` is always enough, because the recursion
depth is bounded by `depth`, which strictly decreases at every recursive
call. -/
def stFuel : Nat → JVal → Int → Except Unit JVal
  | 0, _, _ => Except.error ()
  | Nat.succ fuel, schema, depth =>
    if depth < 0 then Except.ok JVal.jnull
    else
      match schema with
      | JVal.jobj fields =>
          match fields.lookup "type" with
          | some (JVal.jstr sv) =>
              if sv = "object" then
                match (fields.lookup "properties").getD (JVal.jobj []) with
                | JVal.jobj pfields =>
                    match stFieldsFuel fuel pfields (depth - 1) with
                    | Except.ok out => Except.ok (JVal.jobj out)
                    | Except.error e => Except.error e
                | _ => Except.error ()
              else if sv = "array" then
                match stFuel fuel
                    ((fields.lookup "items").getD (JVal.jobj [])) (depth - 1) with
                | Except.ok t => Except.ok (JVal.jarr [t])
                | Except.error e => Except.error e
              else schemaPrim fields
          | _ => schemaPrim fields
      | _ => Except.ok JVal.jnull
termination_by fuel _ _ => (fuel, 0)

/-- Fuel-indexed variant of the properties loop. -/
def stFieldsFuel : Nat → List (String × JVal) → Int →
    Except Unit (List (String × JVal))
  | _, [], _ => Except.ok []
  | fuel, (k, v) :: rest, depth =>
      match stFuel fuel v depth with
      | Except.ok t =>
          match stFieldsFuel fuel rest depth with
          | Except.ok ts => Except.ok ((k, t) :: ts)
          | Except.error e => Except.error e
      | Except.error e => Except.error e
termination_by fuel l _ => (fuel, l.length + 1)
end

theorem stPair (fuel : Nat) :
    (∀ (s : JVal) (d : Int), (d + 1).toNat < fuel →
      stFuel fuel s d = _schema_to_template s d) ∧
    (∀ (l : List (String × JVal)) (d : Int), (d + 1).toNat < fuel →
      stFieldsFuel fuel l d = stFields l d) := by
  induction fuel with
  | zero =>
      constructor
      · intro s d h; omega
      · intro l d h; omega
  | succ k ih =>
      have hA : ∀ (s : JVal) (d : Int), (d + 1).toNat < k + 1 →
          stFuel (k + 1) s d = _schema_to_template s d := by
        intro s d h
        cases s with
        | jobj fields =>
            by_cases hd : d < 0
            · simp only [stFuel, _schema_to_template]
              simp [hd]
            · have hk : (d - 1 + 1).toNat < k := by omega
              simp only [stFuel, _schema_to_template]
              simp only [hd, dite_false, if_false, dif_neg, not_false_iff,
                ite_false]
              cases htyp : fields.lookup "type" with
              | none => rfl
              | some tv =>
                  cases tv with
                  | jstr sv =>
                      dsimp only
                      by_cases ho : sv = "object"
                      · rw [if_pos ho, if_pos ho]
                        cases hp : (fields.lookup "properties").getD
                            (JVal.jobj []) with
                        | jobj pfields =>
                            dsimp only
                            rw [ih.2 pfields (d - 1) hk]
                        | jnull => rfl
                        | jbool b => rfl
                        | jnum n => rfl
                        | jstr s2 => rfl
                        | jarr items => rfl
                      · by_cases ha : sv = "array"
                        · rw [if_neg ho, if_neg ho, if_pos ha, if_pos ha]
                          rw [ih.1 ((fields.lookup "items").getD (JVal.jobj []))
                            (d - 1) hk]
                        · rw [if_neg ho, if_neg ho, if_neg ha, if_neg ha]
                  | jnull => rfl
                  | jbool b => rfl
                  | jnum n => rfl
                  | jarr items => rfl
                  | jobj f2 => rfl
        | jnull =>
            by_cases hd : d < 0 <;> simp only [stFuel, _schema_to_template] <;>
              simp [hd]
        | jbool b =>
            by_cases hd : d < 0 <;> simp only [stFuel, _schema_to_template] <;>
              simp [hd]
        | jnum n =>
            by_cases hd : d < 0 <;> simp only [stFuel, _schema_to_template] <;>
              simp [hd]
        | jstr s2 =>
            by_cases hd : d < 0 <;> simp only [stFuel, _schema_to_template] <;>
              simp [hd]
        | jarr items =>
            by_cases hd : d < 0 <;> simp only [stFuel, _schema_to_template] <;>
              simp [hd]
      refine ⟨hA, ?_⟩
      intro l d h
      induction l with
      | nil => simp only [stFieldsFuel, stFields]
      | cons p rest ihl =>
          obtain ⟨kk, v⟩ := p
          simp only [stFieldsFuel, stFields]
          rw [hA v d h, ihl]

/-- C10: `_schema_to_template` returns None (`JVal.jnull`) whenever depth is
negative or the schema is not a dict, and it terminates by well-founded
recursion on `depth`, which strictly decreases at every recursive call: the
fuel-indexed variant agrees with it whenever it is given more than
`(depth + 1).toNat` levels of fuel. -/
theorem C10_schema_to_template (schema : JVal) (depth : Int) :
    (depth < 0 → _schema_to_template schema depth = Except.ok JVal.jnull) ∧
    ((∀ fields, schema ≠ JVal.jobj fields) →
      _schema_to_template schema depth = Except.ok JVal.jnull) ∧
    _schema_to_template schema depth =
      stFuel ((depth + 1).toNat + 1) schema depth := by
  refine ⟨?_, ?_, ?_⟩
  · intro hd
    cases schema <;> simp only [_schema_to_template] <;> simp [hd]
  · intro hne
    cases schema with
    | jobj fields => exact absurd rfl (hne fields)
    | jnull => simp only [_schema_to_template]; simp
    | jbool b => simp only [_schema_to_template]; simp
    | jnum n => simp only [_schema_to_template]; simp
    | jstr s => simp only [_schema_to_template]; simp
    | jarr items => simp only [_schema_to_template]; simp
  · exact ((stPair ((depth + 1).toNat + 1)).1 schema depth (by omega)).symm

/-- Witness for C10: a negative depth yields None on a dict schema, and a
non-dict schema yields None at positive depth. -/
theorem C10_schema_to_template_witness :
    _schema_to_template (JVal.jobj [("type", JVal.jstr "object")]) (-1) =
      Except.ok JVal.jnull ∧
    _schema_to_template (JVal.jstr "x") 2 = Except.ok JVal.jnull :=
  ⟨(C10_schema_to_template (JVal.jobj [("type", JVal.jstr "object")]) (-1)).1
      (by decide),
   (C10_schema_to_template (JVal.jstr "x") 2).2.1
      (fun fields => by simp)⟩
